import Mathlib

/-!
Shallow embedding of the recipe-management backend (milad-seify/recipe-django-api)
and proofs about its specified behaviour.

The embedding follows `app/core/models.py`, `app/recipe/serializers.py` and
`app/recipe/urls.py` where those files carry the relevant code.  Parts of the
repository that the claims depend on but that are not present under `src/`
(the Recipe/Tag/Ingredient models, the view/query layer, `create_superuser`,
`recipe_image_file_path`) are modelled from the specification; each such
definition says so in its doc comment.
-/

namespace RecipeApp

/-! ## User store (embeds app/core/models.py) -/

/-- Abstract one-way password hash.  Django's `set_password(None)` stores an
unusable credential; `set_password(p)` stores a salted hash of `p`.  We model
the hash abstractly: `hashed p` verifies exactly against `p`, `unusable`
verifies against nothing. -/
inductive PasswordHash where
  | unusable
  | hashed (raw : String)
deriving DecidableEq

/-- Embeds Django's `AbstractBaseUser.set_password`: `None` yields an unusable
credential, otherwise the password's one-way hash. -/
def setPassword : Option String → PasswordHash
  | none => PasswordHash.unusable
  | some p => PasswordHash.hashed p

/-- Embeds Django's `check_password`: true iff the stored hash was derived from
this plaintext. -/
def checkPassword (p : String) (h : PasswordHash) : Bool :=
  h == PasswordHash.hashed p

/-- The `**extra_Field` keyword arguments accepted by
`UserManager.create_user`; they populate the remaining `User` columns
(`app/core/models.py`, class `User`), whose Django defaults are
`is_active=True`, `is_staff=False`; `PermissionsMixin` defaults
`is_superuser=False`. -/
structure ExtraFields where
  name : String
  is_active : Bool
  is_staff : Bool
  is_superuser : Bool
deriving DecidableEq

/-- The extra-field assignment in which every column keeps its model default. -/
def defaultExtra : ExtraFields :=
  ⟨"", true, false, false⟩

/-- One row of the `User` table (`app/core/models.py`, class `User`):
email, name, the three flags, and the stored password hash. -/
structure UserRec where
  email : String
  name : String
  is_active : Bool
  is_staff : Bool
  is_superuser : Bool
  passwordHash : PasswordHash
deriving DecidableEq

/-- Errors a user-store operation can report.  `create_user` as written in
`app/core/models.py` never raises; the spec-modelled `create_superuser` below
uses the validation case. -/
inductive UserError where
  | validationError (msg : String)
deriving DecidableEq

/-- Embeds `UserManager.create_user` from `app/core/models.py` (lines 16-22):

    def create_user(self, email, password=None, **extra_Field):
        user = self.model(email=email, **extra_Field)
        user.set_password(password)
        user.save(using=self._db)
        return user

The function builds the row with the email exactly as given (no
`normalize_email` call), sets the password (possibly from `None`), appends the
row to the table, and returns it.  No branch raises, so no `Except.error`
value is ever produced. -/
def create_user (db : List UserRec) (email : String) (password : Option String)
    (extra : ExtraFields) : Except UserError (UserRec × List UserRec) :=
  let user : UserRec :=
    ⟨email, extra.name, extra.is_active, extra.is_staff, extra.is_superuser,
      setPassword password⟩
  Except.ok (user, db ++ [user])

/-- From the spec's words (§4.1), for comparison with the source embedding:
normalize an email by lower-casing only the domain portion (the text after the
last `@`), preserving the local part's case. -/
def normalizeEmailSpec (email : String) : String :=
  let cs := email.data
  if cs.contains '@' then
    let domRev := cs.reverse.takeWhile (fun c => c ≠ '@')
    let locWithAt := (cs.reverse.drop domRev.length).reverse
    String.mk (locWithAt ++ domRev.reverse.map Char.toLower)
  else email

/-- Modelled from the spec: `UserManager.create_superuser` is absent from the
sources under `src/` (only its test, `ModelTests.test_create_superuser`, calls
it).  Per §4.1 it behaves as `create_user` but sets the staff and superuser
flags true, and it fails with a validation error when the email is
empty/blank. -/
def create_superuser (db : List UserRec) (email : String)
    (password : Option String) : Except UserError (UserRec × List UserRec) :=
  if email = "" then
    Except.error (UserError.validationError "users must have an email address")
  else
    create_user db email password ⟨"", true, true, true⟩

end RecipeApp

/-! ## Claims C3, C4, C5, C10 about the user store -/

namespace RecipeApp

/-- C3: the claim says `create_user` with an empty email fails with a
validation error and persists no user.  The code at `app/core/models.py`
lines 16-22 performs no email check at all: evaluated at the empty email (with
the password of the repository's own test
`ModelTests.test_new_user_without_email_raises_error`, which expects a
`ValueError`), it returns successfully and persists a user row whose email is
the empty string. -/
theorem c3_create_user_empty_email_succeeds :
    create_user [] "" (some "pass123") defaultExtra =
      Except.ok (⟨"", "", true, false, false, PasswordHash.hashed "pass123"⟩,
        [⟨"", "", true, false, false, PasswordHash.hashed "pass123"⟩]) := by
  rfl

/-- C4: the claim says the stored email has exactly the domain portion
lower-cased.  The code stores the email verbatim (no `normalize_email` call):
at the input `Test2@Example.com` of the repository's own test
`ModelTests.test_new_user_email_normalized`, the stored email is
`Test2@Example.com`, while the spec's normalization yields
`Test2@example.com`; the two differ.  The credential half of the claim does
hold: the stored hash verifies against the given password. -/
theorem c4_create_user_does_not_normalize_email :
    (∃ u rest,
        create_user [] "Test2@Example.com" (some "sample123") defaultExtra =
          Except.ok (u, rest) ∧
        u.email = "Test2@Example.com" ∧
        checkPassword "sample123" u.passwordHash = true) ∧
    normalizeEmailSpec "Test2@Example.com" = "Test2@example.com" ∧
    "Test2@Example.com" ≠ "Test2@example.com" := by
  refine ⟨⟨_, _, rfl, rfl, rfl⟩, by decide, by decide⟩

/-- C5: for every non-empty email and every password, the (spec-modelled)
`create_superuser` returns a persisted user whose `is_staff` and
`is_superuser` flags are both true; and it fails exactly on the empty-email
condition that §4.1 assigns to `createUser`. -/
theorem c5_create_superuser_flags_and_failure (db : List UserRec)
    (email : String) (password : Option String) (hne : email ≠ "") :
    (∃ u, create_superuser db email password = Except.ok (u, db ++ [u]) ∧
        u.is_staff = true ∧ u.is_superuser = true ∧ u.email = email) ∧
    (∃ e, create_superuser db "" password = Except.error e) := by
  constructor
  · refine ⟨⟨email, "", true, true, true, setPassword password⟩, ?_, rfl, rfl, rfl⟩
    simp only [create_superuser, if_neg hne]
    rfl
  · exact ⟨UserError.validationError "users must have an email address", rfl⟩

/-- Witness for C5 at the concrete input of `ModelTests.test_create_superuser`
(`test@test.com`, `pass123`). -/
theorem c5_create_superuser_flags_and_failure_witness :
    ("test@test.com" : String) ≠ "" ∧
    ((∃ u, create_superuser [] "test@test.com" (some "pass123") =
          Except.ok (u, [] ++ [u]) ∧
        u.is_staff = true ∧ u.is_superuser = true ∧ u.email = "test@test.com") ∧
    (∃ e, create_superuser [] "" (some "pass123") = Except.error e)) :=
  ⟨by decide,
    c5_create_superuser_flags_and_failure [] "test@test.com" (some "pass123")
      (by decide)⟩

/-- C10: calling `create_user` with the password omitted (Python default
`None`) does not fail: it returns successfully, persists the row for the given
email, and the stored credential is the one `set_password(None)` produces (an
unusable hash, derived from `None`). -/
theorem c10_create_user_without_password (db : List UserRec) (email : String)
    (extra : ExtraFields) :
    ∃ u, create_user db email none extra = Except.ok (u, db ++ [u]) ∧
      u.email = email ∧
      u.passwordHash = setPassword none ∧
      setPassword none = PasswordHash.unusable :=
  ⟨⟨email, extra.name, extra.is_active, extra.is_staff, extra.is_superuser,
      setPassword none⟩, rfl, rfl, rfl, rfl⟩

end RecipeApp

/-! ## Image path deriver (C6) -/

namespace RecipeApp

/-- The substring of a filename after its last dot (its extension, without the
dot).  A name with no dot is the spec's explicitly-undefined edge case (§4.2,
§9); the claims below only quantify over names that contain a dot. -/
def fileExtension (filename : String) : String :=
  String.mk ((filename.data.reverse.takeWhile (fun c => c ≠ '.')).reverse)

/-- Modelled from the spec: `recipe_image_file_path` is absent from the
sources under `src/` (only its test, `ModelTests.test_recipe_file_name_uuid`,
calls it, patching `core.models.uuid.uuid4`).  Per §4.2 it extracts the
extension (substring after the last dot) from the original filename, obtains a
fresh identifier from the (injectable) generator, and returns the fixed-prefix
path `uploads/recipe/{freshId}.{ext}`. -/
def recipe_image_file_path (freshId : String) (filename : String) : String :=
  "uploads/recipe/" ++ freshId ++ "." ++ fileExtension filename

theorem takeWhile_append_dot (l r : List Char) (hl : ∀ c ∈ l, c ≠ '.') :
    List.takeWhile (fun c => decide (c ≠ '.')) (l ++ '.' :: r) = l := by
  rw [List.takeWhile_append]
  have hself : List.takeWhile (fun c => decide (c ≠ '.')) l = l :=
    List.takeWhile_eq_self_iff.mpr (by intro x hx; simpa using hl x hx)
  rw [hself]
  simp

theorem fileExtension_append (base ext : String)
    (hext : ∀ c ∈ ext.data, c ≠ '.') :
    fileExtension (base ++ "." ++ ext) = ext := by
  apply String.ext
  have hdata : (base ++ "." ++ ext).data = base.data ++ '.' :: ext.data := by
    rw [String.data_append, String.data_append, List.append_assoc]
    rfl
  have hrev : (base ++ "." ++ ext).data.reverse =
      ext.data.reverse ++ '.' :: base.data.reverse := by
    rw [hdata, List.reverse_append, List.reverse_cons, List.append_assoc]
    rfl
  show (List.takeWhile (fun c => decide (c ≠ '.'))
      (base ++ "." ++ ext).data.reverse).reverse = ext.data
  rw [hrev, takeWhile_append_dot ext.data.reverse base.data.reverse
    (by intro c hc; exact hext c (List.mem_reverse.mp hc)),
    List.reverse_reverse]

end RecipeApp

namespace RecipeApp

/-- C6: for every fresh identifier and every original filename of the form
`base.ext` (extension dot-free), the derived path is exactly
`uploads/recipe/{freshId}.{ext}`: the fixed prefix, the fresh identifier, and
the substring of the filename after its last dot — and consequently the path
is the same whatever the original base name was, so no part of the base name
ever reaches the path. -/
theorem c6_recipe_image_file_path (freshId base ext : String)
    (hext : ∀ c ∈ ext.data, c ≠ '.') :
    recipe_image_file_path freshId (base ++ "." ++ ext) =
      "uploads/recipe/" ++ freshId ++ "." ++ ext ∧
    ∀ otherBase : String,
      recipe_image_file_path freshId (otherBase ++ "." ++ ext) =
        recipe_image_file_path freshId (base ++ "." ++ ext) := by
  have h : ∀ b : String, recipe_image_file_path freshId (b ++ "." ++ ext) =
      "uploads/recipe/" ++ freshId ++ "." ++ ext := by
    intro b
    unfold recipe_image_file_path
    rw [fileExtension_append b ext hext]
  exact ⟨h base, fun b => (h b).trans (h base).symm⟩

/-- Witness for C6 at the concrete input of
`ModelTests.test_recipe_file_name_uuid`: identifier `test-uuid`, filename
`example.jpg`, expected path `uploads/recipe/test-uuid.jpg`. -/
theorem c6_recipe_image_file_path_witness :
    (∀ c ∈ ("jpg" : String).data, c ≠ '.') ∧
    recipe_image_file_path "test-uuid" ("example" ++ "." ++ "jpg") =
      "uploads/recipe/" ++ "test-uuid" ++ "." ++ "jpg" :=
  ⟨by decide, (c6_recipe_image_file_path "test-uuid" "example" "jpg"
    (by decide)).1⟩

end RecipeApp

/-! ## Domain records, serializers (C8) and URL router (C9) -/

namespace RecipeApp

/-- Modelled from the spec: the `Recipe` model itself is not under `src/`
(only its serializers, URL config and tests are).  §3: owned by exactly one
user; title, integer time-in-minutes, decimal price, description, optional
link; many-to-many associations with tags and ingredients, held here as lists
of entity ids.  The price is carried as an exact decimal string as the wire
tests do. -/
structure Recipe where
  id : Nat
  user : Nat
  title : String
  time_minutes : Nat
  price : String
  description : String
  link : String
  tagIds : List Nat
  ingredientIds : List Nat
deriving DecidableEq

/-- Modelled from the spec (§3): a tag is owned by one user and has a name. -/
structure Tag where
  id : Nat
  user : Nat
  name : String
deriving DecidableEq

/-- Modelled from the spec (§3): an ingredient has the same shape as a tag. -/
structure Ingredient where
  id : Nat
  user : Nat
  name : String
deriving DecidableEq

/-- Embeds `RecipeSerializer.Meta` from `app/recipe/serializers.py`:
`fields = ['id', 'title', 'time_minutes', 'price', 'link']`,
`read_only_fields = ['id']`. -/
def recipeSerializerFields : List String :=
  ["id", "title", "time_minutes", "price", "link"]

def recipeSerializerReadOnlyFields : List String :=
  ["id"]

/-- Embeds `RecipeDetailSerializer.Meta` from `app/recipe/serializers.py`:
`fields = RecipeSerializer.Meta.fields + ['description']`, inheriting the
read-only list. -/
def recipeDetailSerializerFields : List String :=
  recipeSerializerFields ++ ["description"]

/-- The rendered value of one serializer field of a recipe. -/
def recipeFieldValue (r : Recipe) : String → String
  | "id" => toString r.id
  | "title" => r.title
  | "time_minutes" => toString r.time_minutes
  | "price" => r.price
  | "link" => r.link
  | "description" => r.description
  | _ => ""

/-- Serialization of a recipe to its wire representation: the whitelisted
fields of the chosen form, in order, each paired with its rendered value. -/
def serializeRecipe (detailForm : Bool) (r : Recipe) : List (String × String) :=
  (if detailForm then recipeDetailSerializerFields else recipeSerializerFields).map
    (fun f => (f, recipeFieldValue r f))

/-- Embeds `app/recipe/urls.py`: the `DefaultRouter` has exactly one
registration, `router.register('recipes', views.RecipeViewSet)`. -/
def registeredResources : List String :=
  ["recipes"]

/-- Model of the router's generated resource routes: one list path and one
detail path per registered resource prefix. -/
def routerPaths (resources : List String) : List String :=
  resources.flatMap (fun p => [p ++ "/", p ++ "/{id}/"])

end RecipeApp

namespace RecipeApp

/-- C8: for every recipe, the list-form wire representation carries exactly
the fields id, title, time_minutes, price, link (in that order), with id in
the read-only set, and the detail form carries exactly those fields plus
description. -/
theorem c8_recipe_serializer_fields (r : Recipe) :
    (serializeRecipe false r).map Prod.fst =
      ["id", "title", "time_minutes", "price", "link"] ∧
    (serializeRecipe true r).map Prod.fst =
      ["id", "title", "time_minutes", "price", "link", "description"] ∧
    "id" ∈ recipeSerializerReadOnlyFields ∧
    recipeDetailSerializerFields = recipeSerializerFields ++ ["description"] := by
  refine ⟨?_, ?_, by decide, rfl⟩ <;>
    simp [serializeRecipe, recipeDetailSerializerFields, recipeSerializerFields]

/-- C9: the recipe app's router registers only the `recipes` resource — in
particular neither `tags` nor `ingredients` — so the produced paths are
exactly the recipes list path and the recipes detail path. -/
theorem c9_router_registers_only_recipes :
    routerPaths registeredResources = ["recipes/", "recipes/{id}/"] ∧
    registeredResources = ["recipes"] ∧
    "tags" ∉ registeredResources ∧
    "ingredients" ∉ registeredResources := by
  refine ⟨rfl, rfl, by decide, by decide⟩

end RecipeApp

/-! ## Query/filter layer (modelled from the spec, §4.3 and §6) -/

namespace RecipeApp

/-- The persistent store the query layer reads. -/
structure Db where
  recipes : List Recipe
  tags : List Tag
  ingredients : List Ingredient
deriving DecidableEq

/-- Descending-name comparison on tags (`order_by('-name')`). -/
def tagNameDescLe (a b : Tag) : Bool := decide (b.name ≤ a.name)

/-- Descending-name comparison on ingredients (`order_by('-name')`). -/
def ingredientNameDescLe (a b : Ingredient) : Bool := decide (b.name ≤ a.name)

/-- Descending-id comparison on recipes (`order_by('-id')`). -/
def recipeIdDescLe (a b : Recipe) : Bool := decide (b.id ≤ a.id)

/-- Modelled from the spec: the tag listing of the view layer, which is not
under `src/` (only its tests are).  §4.3: the result is restricted to the
caller's tags; with `assigned_only` it keeps only tags attached to at least
one recipe owned by the caller; it is ordered by descending name. -/
def listTags (db : Db) (u : Nat) (assignedOnly : Bool) : List Tag :=
  let owned := db.tags.filter (fun t => t.user == u)
  let base :=
    match assignedOnly with
    | true => owned.filter
        (fun t => db.recipes.any (fun r => r.user == u && r.tagIds.contains t.id))
    | false => owned
  List.mergeSort base tagNameDescLe

/-- Modelled from the spec: the ingredient listing, identical in contract to
the tag listing (§4.3). -/
def listIngredients (db : Db) (u : Nat) (assignedOnly : Bool) : List Ingredient :=
  let owned := db.ingredients.filter (fun i => i.user == u)
  let base :=
    match assignedOnly with
    | true => owned.filter
        (fun i => db.recipes.any
          (fun r => r.user == u && r.ingredientIds.contains i.id))
    | false => owned
  List.mergeSort base ingredientNameDescLe

/-- Modelled from the spec: the recipe listing (§4.3), restricted to the
caller's recipes and ordered by descending primary key. -/
def listRecipes (db : Db) (u : Nat) : List Recipe :=
  List.mergeSort (db.recipes.filter (fun r => r.user == u)) recipeIdDescLe

/-- The two HTTP failure modes the ownership claims distinguish: 404 and
403. -/
inductive ApiFailure where
  | notFound
  | forbidden
deriving DecidableEq

/-- Modelled from the spec: a detail lookup first scopes the store to the
caller's rows and then resolves `{id}` inside that scope, so a miss — whether
the id does not exist at all or belongs to another user — is reported as
not-found (§6, §7). -/
def detailTag (db : Db) (u : Nat) (tagId : Nat) : Except ApiFailure Tag :=
  match (db.tags.filter (fun t => t.user == u)).find? (fun t => t.id == tagId) with
  | some t => Except.ok t
  | none => Except.error ApiFailure.notFound

/-- Modelled from the spec: ingredient detail lookup, same contract. -/
def detailIngredient (db : Db) (u : Nat) (ingId : Nat) :
    Except ApiFailure Ingredient :=
  match (db.ingredients.filter (fun i => i.user == u)).find?
      (fun i => i.id == ingId) with
  | some i => Except.ok i
  | none => Except.error ApiFailure.notFound

/-- Modelled from the spec: recipe detail lookup, same contract. -/
def detailRecipe (db : Db) (u : Nat) (recipeId : Nat) :
    Except ApiFailure Recipe :=
  match (db.recipes.filter (fun r => r.user == u)).find?
      (fun r => r.id == recipeId) with
  | some r => Except.ok r
  | none => Except.error ApiFailure.notFound

theorem listTags_mem_base (db : Db) (u : Nat) (t : Tag)
    (h : t ∈ listTags db u true) :
    t ∈ db.tags ∧ t.user = u ∧
      ∃ r ∈ db.recipes, r.user = u ∧ t.id ∈ r.tagIds := by
  unfold listTags at h
  have h' := (List.mergeSort_perm _ tagNameDescLe).mem_iff.mp h
  obtain ⟨howned, hany⟩ := List.mem_filter.mp h'
  obtain ⟨hin, huser⟩ := List.mem_filter.mp howned
  rw [List.any_eq_true] at hany
  obtain ⟨r, hr, hcond⟩ := hany
  rw [Bool.and_eq_true, beq_iff_eq] at hcond
  refine ⟨hin, by simpa using huser, r, hr, hcond.1, ?_⟩
  simpa using hcond.2

theorem listTags_mem_of (db : Db) (u : Nat) (t : Tag)
    (hin : t ∈ db.tags) (huser : t.user = u)
    (r : Recipe) (hr : r ∈ db.recipes) (hru : r.user = u)
    (hid : t.id ∈ r.tagIds) :
    t ∈ listTags db u true := by
  unfold listTags
  rw [(List.mergeSort_perm _ tagNameDescLe).mem_iff]
  refine List.mem_filter.mpr ⟨List.mem_filter.mpr ⟨hin, by simpa using huser⟩, ?_⟩
  rw [List.any_eq_true]
  exact ⟨r, hr, by simp [hru, hid]⟩

theorem listTags_nodup_ids (db : Db) (u : Nat) (b : Bool)
    (htagids : (db.tags.map Tag.id).Nodup) :
    ((listTags db u b).map Tag.id).Nodup := by
  unfold listTags
  have hsub : ∀ base : List Tag, base.Sublist db.tags →
      ((List.mergeSort base tagNameDescLe).map Tag.id).Nodup := by
    intro base hb
    have h1 : (base.map Tag.id).Nodup :=
      List.Nodup.sublist (List.Sublist.map Tag.id hb) htagids
    exact (((List.mergeSort_perm base tagNameDescLe).map Tag.id)).symm.nodup h1
  cases b with
  | false => exact hsub _ (List.filter_sublist _)
  | true => exact hsub _ ((List.filter_sublist _).trans (List.filter_sublist _))

theorem listIngredients_mem_base (db : Db) (u : Nat) (i : Ingredient)
    (h : i ∈ listIngredients db u true) :
    i ∈ db.ingredients ∧ i.user = u ∧
      ∃ r ∈ db.recipes, r.user = u ∧ i.id ∈ r.ingredientIds := by
  unfold listIngredients at h
  have h' := (List.mergeSort_perm _ ingredientNameDescLe).mem_iff.mp h
  obtain ⟨howned, hany⟩ := List.mem_filter.mp h'
  obtain ⟨hin, huser⟩ := List.mem_filter.mp howned
  rw [List.any_eq_true] at hany
  obtain ⟨r, hr, hcond⟩ := hany
  rw [Bool.and_eq_true, beq_iff_eq] at hcond
  refine ⟨hin, by simpa using huser, r, hr, hcond.1, ?_⟩
  simpa using hcond.2

theorem listIngredients_mem_of (db : Db) (u : Nat) (i : Ingredient)
    (hin : i ∈ db.ingredients) (huser : i.user = u)
    (r : Recipe) (hr : r ∈ db.recipes) (hru : r.user = u)
    (hid : i.id ∈ r.ingredientIds) :
    i ∈ listIngredients db u true := by
  unfold listIngredients
  rw [(List.mergeSort_perm _ ingredientNameDescLe).mem_iff]
  refine List.mem_filter.mpr ⟨List.mem_filter.mpr ⟨hin, by simpa using huser⟩, ?_⟩
  rw [List.any_eq_true]
  exact ⟨r, hr, by simp [hru, hid]⟩

theorem listIngredients_nodup_ids (db : Db) (u : Nat) (b : Bool)
    (hingids : (db.ingredients.map Ingredient.id).Nodup) :
    ((listIngredients db u b).map Ingredient.id).Nodup := by
  unfold listIngredients
  have hsub : ∀ base : List Ingredient, base.Sublist db.ingredients →
      ((List.mergeSort base ingredientNameDescLe).map Ingredient.id).Nodup := by
    intro base hb
    have h1 : (base.map Ingredient.id).Nodup :=
      List.Nodup.sublist (List.Sublist.map Ingredient.id hb) hingids
    exact (((List.mergeSort_perm base ingredientNameDescLe).map
      Ingredient.id)).symm.nodup h1
  cases b with
  | false => exact hsub _ (List.filter_sublist _)
  | true => exact hsub _ ((List.filter_sublist _).trans (List.filter_sublist _))

end RecipeApp

namespace RecipeApp

theorem listTags_owner (db : Db) (u : Nat) (b : Bool) (t : Tag)
    (h : t ∈ listTags db u b) : t.user = u := by
  unfold listTags at h
  have h' := (List.mergeSort_perm _ tagNameDescLe).mem_iff.mp h
  have howned : t ∈ db.tags.filter (fun t => t.user == u) := by
    cases b with
    | false => exact h'
    | true => exact (List.mem_filter.mp h').1
  simpa using (List.mem_filter.mp howned).2

theorem listIngredients_owner (db : Db) (u : Nat) (b : Bool) (i : Ingredient)
    (h : i ∈ listIngredients db u b) : i.user = u := by
  unfold listIngredients at h
  have h' := (List.mergeSort_perm _ ingredientNameDescLe).mem_iff.mp h
  have howned : i ∈ db.ingredients.filter (fun i => i.user == u) := by
    cases b with
    | false => exact h'
    | true => exact (List.mem_filter.mp h').1
  simpa using (List.mem_filter.mp howned).2

theorem listRecipes_owner (db : Db) (u : Nat) (r : Recipe)
    (h : r ∈ listRecipes db u) : r.user = u := by
  unfold listRecipes at h
  have h' := (List.mergeSort_perm _ recipeIdDescLe).mem_iff.mp h
  simpa using (List.mem_filter.mp h').2

theorem detailTag_cross_owner (db : Db) (u : Nat) (tagId : Nat)
    (h : ∀ t ∈ db.tags, t.id = tagId → t.user ≠ u) :
    detailTag db u tagId = Except.error ApiFailure.notFound := by
  unfold detailTag
  have hnone : (db.tags.filter (fun t => t.user == u)).find?
      (fun t => t.id == tagId) = none := by
    rw [List.find?_eq_none]
    intro x hx
    obtain ⟨hin, huser⟩ := List.mem_filter.mp hx
    simp only [beq_iff_eq] at huser ⊢
    intro hid
    exact h x hin hid huser
  rw [hnone]

theorem detailIngredient_cross_owner (db : Db) (u : Nat) (ingId : Nat)
    (h : ∀ i ∈ db.ingredients, i.id = ingId → i.user ≠ u) :
    detailIngredient db u ingId = Except.error ApiFailure.notFound := by
  unfold detailIngredient
  have hnone : (db.ingredients.filter (fun i => i.user == u)).find?
      (fun i => i.id == ingId) = none := by
    rw [List.find?_eq_none]
    intro x hx
    obtain ⟨hin, huser⟩ := List.mem_filter.mp hx
    simp only [beq_iff_eq] at huser ⊢
    intro hid
    exact h x hin hid huser
  rw [hnone]

theorem detailRecipe_cross_owner (db : Db) (u : Nat) (recipeId : Nat)
    (h : ∀ r ∈ db.recipes, r.id = recipeId → r.user ≠ u) :
    detailRecipe db u recipeId = Except.error ApiFailure.notFound := by
  unfold detailRecipe
  have hnone : (db.recipes.filter (fun r => r.user == u)).find?
      (fun r => r.id == recipeId) = none := by
    rw [List.find?_eq_none]
    intro x hx
    obtain ⟨hin, huser⟩ := List.mem_filter.mp hx
    simp only [beq_iff_eq] at huser ⊢
    intro hid
    exact h x hin hid huser
  rw [hnone]

theorem detailTag_never_forbidden (db : Db) (u : Nat) (tagId : Nat) :
    detailTag db u tagId ≠ Except.error ApiFailure.forbidden := by
  unfold detailTag
  cases hfind : (db.tags.filter (fun t => t.user == u)).find?
      (fun t => t.id == tagId) with
  | none => simp
  | some t => simp

theorem detailIngredient_never_forbidden (db : Db) (u : Nat) (ingId : Nat) :
    detailIngredient db u ingId ≠ Except.error ApiFailure.forbidden := by
  unfold detailIngredient
  cases hfind : (db.ingredients.filter (fun i => i.user == u)).find?
      (fun i => i.id == ingId) with
  | none => simp
  | some i => simp

theorem detailRecipe_never_forbidden (db : Db) (u : Nat) (recipeId : Nat) :
    detailRecipe db u recipeId ≠ Except.error ApiFailure.forbidden := by
  unfold detailRecipe
  cases hfind : (db.recipes.filter (fun r => r.user == u)).find?
      (fun r => r.id == recipeId) with
  | none => simp
  | some r => simp

theorem listTags_sorted_desc (db : Db) (u : Nat) (b : Bool) :
    List.Pairwise (fun a c : Tag => c.name ≤ a.name) (listTags db u b) := by
  unfold listTags
  have htrans : ∀ (a c e : Tag), tagNameDescLe a c = true →
      tagNameDescLe c e = true → tagNameDescLe a e = true := by
    intro a c e hac hce
    simp only [tagNameDescLe, decide_eq_true_iff] at hac hce ⊢
    exact le_trans hce hac
  have htot : ∀ (a c : Tag), (tagNameDescLe a c || tagNameDescLe c a) = true := by
    intro a c
    simp only [tagNameDescLe, Bool.or_eq_true, decide_eq_true_iff]
    exact le_total c.name a.name
  exact (List.sorted_mergeSort htrans htot _).imp
    (by intro a c h; simpa [tagNameDescLe] using h)

theorem listIngredients_sorted_desc (db : Db) (u : Nat) (b : Bool) :
    List.Pairwise (fun a c : Ingredient => c.name ≤ a.name)
      (listIngredients db u b) := by
  unfold listIngredients
  have htrans : ∀ (a c e : Ingredient), ingredientNameDescLe a c = true →
      ingredientNameDescLe c e = true → ingredientNameDescLe a e = true := by
    intro a c e hac hce
    simp only [ingredientNameDescLe, decide_eq_true_iff] at hac hce ⊢
    exact le_trans hce hac
  have htot : ∀ (a c : Ingredient),
      (ingredientNameDescLe a c || ingredientNameDescLe c a) = true := by
    intro a c
    simp only [ingredientNameDescLe, Bool.or_eq_true, decide_eq_true_iff]
    exact le_total c.name a.name
  exact (List.sorted_mergeSort htrans htot _).imp
    (by intro a c h; simpa [ingredientNameDescLe] using h)

theorem listTags_false_perm (db : Db) (u : Nat) :
    (listTags db u false).Perm (db.tags.filter (fun t => t.user == u)) :=
  List.mergeSort_perm _ tagNameDescLe

theorem listIngredients_false_perm (db : Db) (u : Nat) :
    (listIngredients db u false).Perm
      (db.ingredients.filter (fun i => i.user == u)) :=
  List.mergeSort_perm _ ingredientNameDescLe

end RecipeApp

namespace RecipeApp

/-- A small concrete store used by the witnesses: user 1 owns two recipes,
two tags and two ingredients; tag 1 and ingredient 1 are attached to both
recipes; user 2 owns one tag and one ingredient. -/
def sampleDb : Db :=
  ⟨[⟨1, 1, "Salad", 32, "43.2", "good food test",
      "http://recipetest.com/recipe.pdf", [1], [1]⟩,
    ⟨2, 1, "Beef", 32, "43.2", "good food test",
      "http://recipetest.com/recipe.pdf", [1], [1]⟩],
   [⟨1, 1, "Oil"⟩, ⟨2, 1, "Lemon"⟩, ⟨3, 2, "Fruity"⟩],
   [⟨1, 1, "Oil"⟩, ⟨2, 1, "Lemon"⟩, ⟨3, 2, "Salt"⟩]⟩

/-- C1: every list operation over recipes, tags and ingredients returns only
entities owned by the caller, and a detail access to an id that no row owned
by the caller carries — in particular an id owned by a different user — fails
as not-found; no detail access ever fails as forbidden. -/
theorem c1_owner_scoping (db : Db) (u : Nat) :
    (∀ b t, t ∈ listTags db u b → t.user = u) ∧
    (∀ b i, i ∈ listIngredients db u b → i.user = u) ∧
    (∀ r, r ∈ listRecipes db u → r.user = u) ∧
    (∀ tagId, (∀ t ∈ db.tags, t.id = tagId → t.user ≠ u) →
      detailTag db u tagId = Except.error ApiFailure.notFound) ∧
    (∀ ingId, (∀ i ∈ db.ingredients, i.id = ingId → i.user ≠ u) →
      detailIngredient db u ingId = Except.error ApiFailure.notFound) ∧
    (∀ recipeId, (∀ r ∈ db.recipes, r.id = recipeId → r.user ≠ u) →
      detailRecipe db u recipeId = Except.error ApiFailure.notFound) ∧
    (∀ tagId, detailTag db u tagId ≠ Except.error ApiFailure.forbidden) ∧
    (∀ ingId, detailIngredient db u ingId ≠ Except.error ApiFailure.forbidden) ∧
    (∀ recipeId, detailRecipe db u recipeId ≠ Except.error ApiFailure.forbidden) :=
  ⟨fun b t => listTags_owner db u b t,
   fun b i => listIngredients_owner db u b i,
   fun r => listRecipes_owner db u r,
   fun tagId => detailTag_cross_owner db u tagId,
   fun ingId => detailIngredient_cross_owner db u ingId,
   fun recipeId => detailRecipe_cross_owner db u recipeId,
   fun tagId => detailTag_never_forbidden db u tagId,
   fun ingId => detailIngredient_never_forbidden db u ingId,
   fun recipeId => detailRecipe_never_forbidden db u recipeId⟩

/-- Witness for C1 on `sampleDb`: tag 3 and ingredient 3 belong to user 2, so
user 1's detail access to them fails as not-found, not forbidden. -/
theorem c1_owner_scoping_witness :
    (∀ t ∈ sampleDb.tags, t.id = 3 → t.user ≠ 1) ∧
    detailTag sampleDb 1 3 = Except.error ApiFailure.notFound ∧
    (∀ i ∈ sampleDb.ingredients, i.id = 3 → i.user ≠ 1) ∧
    detailIngredient sampleDb 1 3 = Except.error ApiFailure.notFound ∧
    detailTag sampleDb 1 3 ≠ Except.error ApiFailure.forbidden := by
  have h := c1_owner_scoping sampleDb 1
  exact ⟨by decide, h.2.2.2.1 3 (by decide), by decide,
    h.2.2.2.2.1 3 (by decide), h.2.2.2.2.2.2.1 3⟩

/-- C2: when the store is well-formed (entity ids are unique and recipe
associations reference existing same-owner entities), listing tags
(respectively ingredients) with `assigned_only` returns exactly the tags
(ingredients) attached to at least one recipe owned by the caller, and the
result carries no entity twice even when it is attached to several of the
caller's recipes. -/
theorem c2_assigned_only_exact (db : Db) (u : Nat)
    (htagids : (db.tags.map Tag.id).Nodup)
    (hingids : (db.ingredients.map Ingredient.id).Nodup)
    (htagwf : ∀ r ∈ db.recipes, ∀ tid ∈ r.tagIds,
      ∃ t ∈ db.tags, t.id = tid ∧ t.user = r.user)
    (hingwf : ∀ r ∈ db.recipes, ∀ iid ∈ r.ingredientIds,
      ∃ i ∈ db.ingredients, i.id = iid ∧ i.user = r.user) :
    (∀ t, t ∈ listTags db u true ↔
      t ∈ db.tags ∧ ∃ r ∈ db.recipes, r.user = u ∧ t.id ∈ r.tagIds) ∧
    ((listTags db u true).map Tag.id).Nodup ∧
    (∀ i, i ∈ listIngredients db u true ↔
      i ∈ db.ingredients ∧ ∃ r ∈ db.recipes, r.user = u ∧ i.id ∈ r.ingredientIds) ∧
    ((listIngredients db u true).map Ingredient.id).Nodup := by
  refine ⟨?_, listTags_nodup_ids db u true htagids, ?_,
    listIngredients_nodup_ids db u true hingids⟩
  · intro t
    constructor
    · intro h
      obtain ⟨hin, _, r, hr, hru, hid⟩ := listTags_mem_base db u t h
      exact ⟨hin, r, hr, hru, hid⟩
    · rintro ⟨hin, r, hr, hru, hid⟩
      obtain ⟨t', ht', htid, htuser⟩ := htagwf r hr t.id hid
      have heq : t' = t := List.inj_on_of_nodup_map htagids ht' hin htid
      have huser : t.user = u := by rw [← heq, htuser, hru]
      exact listTags_mem_of db u t hin huser r hr hru hid
  · intro i
    constructor
    · intro h
      obtain ⟨hin, _, r, hr, hru, hid⟩ := listIngredients_mem_base db u i h
      exact ⟨hin, r, hr, hru, hid⟩
    · rintro ⟨hin, r, hr, hru, hid⟩
      obtain ⟨i', hi', hiid, hiuser⟩ := hingwf r hr i.id hid
      have heq : i' = i := List.inj_on_of_nodup_map hingids hi' hin hiid
      have huser : i.user = u := by rw [← heq, hiuser, hru]
      exact listIngredients_mem_of db u i hin huser r hr hru hid

/-- Witness for C2 on `sampleDb`, whose tag 1 and ingredient 1 are attached
to both of user 1's recipes while tag 2, ingredient 2 and the other user's
entities are attached to none. -/
theorem c2_assigned_only_exact_witness :
    (sampleDb.tags.map Tag.id).Nodup ∧
    (sampleDb.ingredients.map Ingredient.id).Nodup ∧
    (∀ r ∈ sampleDb.recipes, ∀ tid ∈ r.tagIds,
      ∃ t ∈ sampleDb.tags, t.id = tid ∧ t.user = r.user) ∧
    (∀ r ∈ sampleDb.recipes, ∀ iid ∈ r.ingredientIds,
      ∃ i ∈ sampleDb.ingredients, i.id = iid ∧ i.user = r.user) ∧
    ((∀ t, t ∈ listTags sampleDb 1 true ↔
        t ∈ sampleDb.tags ∧ ∃ r ∈ sampleDb.recipes, r.user = 1 ∧ t.id ∈ r.tagIds) ∧
      ((listTags sampleDb 1 true).map Tag.id).Nodup ∧
      (∀ i, i ∈ listIngredients sampleDb 1 true ↔
        i ∈ sampleDb.ingredients ∧
          ∃ r ∈ sampleDb.recipes, r.user = 1 ∧ i.id ∈ r.ingredientIds) ∧
      ((listIngredients sampleDb 1 true).map Ingredient.id).Nodup) :=
  ⟨by decide, by decide, by decide, by decide,
    c2_assigned_only_exact sampleDb 1 (by decide) (by decide) (by decide)
      (by decide)⟩

/-- C7: without the `assigned_only` filter, the tag and ingredient listings
return exactly the caller's tags and ingredients (as a permutation of the
owner-filtered table), ordered by descending name. -/
theorem c7_unfiltered_listing_ordered (db : Db) (u : Nat) :
    (listTags db u false).Perm (db.tags.filter (fun t => t.user == u)) ∧
    List.Pairwise (fun a c : Tag => c.name ≤ a.name) (listTags db u false) ∧
    (listIngredients db u false).Perm
      (db.ingredients.filter (fun i => i.user == u)) ∧
    List.Pairwise (fun a c : Ingredient => c.name ≤ a.name)
      (listIngredients db u false) :=
  ⟨listTags_false_perm db u, listTags_sorted_desc db u false,
   listIngredients_false_perm db u, listIngredients_sorted_desc db u false⟩

end RecipeApp
